import Mathlib

/-!
Verification development for the Emacs-daemon manager library
(`src/lib/daemons.rs`).  The OS-dependent pieces (process-table snapshot,
filesystem existence, signal delivery) are passed in explicitly, so every
function below is an executable shallow embedding of the corresponding
Rust function.
-/

/-- Model of Rust `str::split_once(sep)` on a character list: split at the
first occurrence of `sep`, returning the parts before and after it, or
`none` when `sep` does not occur. -/
def splitOnceChar (sep : Char) : List Char → Option (List Char × List Char)
  | [] => none
  | c :: cs =>
    if c = sep then some ([], cs)
    else
      match splitOnceChar sep cs with
      | some (a, b) => some (c :: a, b)
      | none => none

/-- Model of Rust `str::split(sep)` on a character list: the list of
segments between occurrences of `sep`, empty segments included; always at
least one segment. -/
def splitChar (sep : Char) : List Char → List (List Char)
  | [] => [[]]
  | c :: cs =>
    if c = sep then [] :: splitChar sep cs
    else
      match splitChar sep cs with
      | [] => [[c]]
      | s :: ss => (c :: s) :: ss

/-- Model of Rust `Path::file_name` for a POSIX path given as a character
list: split on the separator, drop empty and `.` components, take the last
remaining component; `none` when nothing remains or the path ends in
`..`. -/
def fileNameChar (l : List Char) : Option (List Char) :=
  match ((splitChar '/' l).filter (fun c => !(c == [] || c == ['.']))).getLast? with
  | none => none
  | some c => if c = ['.', '.'] then none else some c

/-- The socket-name extraction rule of `DaemonProcess::from_sys_process`
(lines 24-29): suffix after the first `=`, last newline-separated segment,
final path component. -/
def extractCore (l : List Char) : Option (List Char) :=
  match splitOnceChar '=' l with
  | none => none
  | some (_, suf) =>
    match (splitChar '\n' suf).getLast? with
    | none => none
    | some seg => fileNameChar seg

/-- String-level wrapper of the extraction rule applied to an argv[1]
value. -/
def extractSocketName (arg : String) : Option String :=
  match extractCore arg.data with
  | none => none
  | some l => some (String.mk l)

/-- Model of `a.isPrefixOf b` for character lists (needed for substring
search). -/
def leadsWith : List Char → List Char → Bool
  | [], _ => true
  | _ :: _, [] => false
  | a :: as, b :: bs => a == b && leadsWith as bs

/-- Model of Rust `str::contains(needle)`: some contiguous run of `hay`
equals `needle`. -/
def containsSeq (needle : List Char) : List Char → Bool
  | [] => leadsWith needle []
  | c :: cs => leadsWith needle (c :: cs) || containsSeq needle cs

/-- Substring test on strings, as used by `args.contains("daemon")`. -/
def strContains (hay needle : String) : Bool :=
  containsSeq needle.data hay.data

/-- Model of Rust `str::to_lowercase` (ASCII lowering suffices for the
`emacs` comparison this library performs). -/
def strToLower (s : String) : String :=
  String.mk (s.data.map Char.toLower)

/-- Model of Rust `str::starts_with(pre)`. -/
def strStartsWith (s pre : String) : Bool :=
  leadsWith pre.data s.data

/-- Model of Rust `str::ends_with` for the single separator character
(used by the `join` model). -/
def strEndsSlash (s : String) : Bool :=
  s.data.getLast? == some '/'

/-- Model of `PathBuf::join` / `push` for POSIX paths: an absolute
component replaces the base, otherwise a single separator is inserted when
needed. -/
def pathJoin (base comp : String) : String :=
  if strStartsWith comp "/" then comp
  else if base = "" then comp
  else if strEndsSlash base then base ++ comp
  else base ++ "/" ++ comp

/-- Rust `format!` left-justified minimum-width padding, as in
`{:<14}`. -/
def padRight (s : String) (w : Nat) : String :=
  s ++ String.mk (List.replicate (w - s.length) ' ')

/-- Rust `format!` right-aligned minimum-width padding, as in `{:>8}`. -/
def padLeft (s : String) (w : Nat) : String :=
  String.mk (List.replicate (w - s.length) ' ') ++ s

/-- The `Config` struct: temp directory root and default socket name. -/
structure Config where
  tmp_dir : String
  default_socket : String
deriving DecidableEq, Repr

/-- One process of a point-in-time process-table snapshot, with the
attributes `sysinfo` exposes to this library: pid, owning user id (absent
when the OS does not disclose it), process name, argument vector. -/
structure Process where
  pid : Nat
  user_id : Option Nat
  name : String
  cmd : List String
deriving DecidableEq, Repr

/-- The `DaemonProcess` struct of `daemons.rs`. -/
structure DaemonProcess where
  pid : Nat
  user_id : Option Nat
  socket_name : String
deriving DecidableEq, Repr

/-- The structured content of the `std::io::Error` values built in
`daemons.rs`. -/
inductive DaemonErr where
  /-- `Daemon socket at path .. does not exist.` (socket_file) -/
  | socketMissing (path : String)
  /-- `Unexpected! No user ID present ..` (socket_file) -/
  | noUserId
  /-- `Error trying to send kill signal .. with Pid ..` (kill, `Some(false)`) -/
  | signalRefused (socket_name : String) (pid : Nat)
  /-- `Signal::Term does not exist on this system.` (kill, `None`) -/
  | signalUnsupported
  /-- `.. No process found with with Pid ..` (kill, process absent) -/
  | pidGone (pid : Nat)
  /-- `No Emacs daemon found with socket name ..` (kill_daemon) -/
  | noMatch (socket_name : String)
deriving DecidableEq, Repr

deriving instance DecidableEq for Except

/-- The signals of `sysinfo::Signal` used by this library (only `Term`). -/
inductive Signal where
  | term
deriving DecidableEq, Repr

/-- Environment consulted by `DaemonProcess::kill`: the fresh process
table built by `System::new_all()` (membership of a pid), and the outcome
of `Process::kill_with` on a live process (`some true` delivered,
`some false` refused by the OS, `none` signal unsupported). -/
structure KillEnv where
  procAlive : Nat → Bool
  deliver : Nat → Signal → Option Bool

/-- `DaemonProcess::from_sys_process` (lines 17-36): build a record from a
snapshot process when argv[1] exists and the extraction rule succeeds. -/
def DaemonProcess.from_sys_process (p : Process) : Option DaemonProcess :=
  match p.cmd[1]? with
  | none => none
  | some a1 =>
    match extractSocketName a1 with
    | none => none
    | some sn => some { pid := p.pid, user_id := p.user_id, socket_name := sn }

/-- `get_daemons` (lines 101-111) applied to a snapshot: keep processes
whose lowercased name starts with `emacs` and whose argv[1] contains
`daemon`, then build records, dropping the unparseable ones. -/
def get_daemons (ps : List Process) : List DaemonProcess :=
  ((ps.filter (fun p => strStartsWith (strToLower p.name) "emacs")).filter
    (fun p =>
      match p.cmd[1]? with
      | some a1 => strContains a1 "daemon"
      | none => false)).filterMap DaemonProcess.from_sys_process

/-- `DaemonProcess::socket_file` (lines 79-97): derive
`tmp_dir/emacs<uid>/<socket_name>` and require it to exist; the
filesystem is abstracted to the existence check `fsExists`. -/
def DaemonProcess.socket_file (d : DaemonProcess) (config : Config)
    (fsExists : String → Bool) : Except DaemonErr String :=
  match d.user_id with
  | some uid =>
    let socket_path := pathJoin (pathJoin config.tmp_dir ("emacs" ++ Nat.repr uid)) d.socket_name
    if fsExists socket_path then .ok socket_path
    else .error (.socketMissing socket_path)
  | none => .error .noUserId

/-- `DaemonProcess::show` (lines 65-77).  The Rust code calls `.expect`
on `socket_file`, so a resolution failure panics: that is modelled as
`none`.  The nested `format!` calls are reproduced verbatim. -/
def DaemonProcess.showLine (d : DaemonProcess) (config : Config)
    (fsExists : String → Bool) : Option String :=
  match d.socket_file config fsExists with
  | .error _ => none
  | .ok path =>
    some (padRight d.socket_name 14 ++ " [" ++ ("Pid: " ++ padLeft (Nat.repr d.pid) 8)
      ++ ", " ++ ("Socket: " ++ padRight path 30 ++ " ") ++ "]")

/-- The `for_each`/`println!` loop body of `list_daemons`: lines printed
for a list of records, stopping with `false` (panic) at the first record
whose `show` panics; `true` means the loop finished. -/
def showLines (config : Config) (fsExists : String → Bool) :
    List DaemonProcess → List String × Bool
  | [] => ([], true)
  | d :: ds =>
    match d.showLine config fsExists with
    | none => ([], false)
    | some line =>
      (line :: (showLines config fsExists ds).1, (showLines config fsExists ds).2)

/-- `list_daemons` (lines 114-120): header line, then one line per
record; the boolean is `true` exactly when the function returns `Ok(())`
(it is `false` when a `show` call panicked mid-listing). -/
def list_daemons (ps : List Process) (config : Config)
    (fsExists : String → Bool) : List String × Bool :=
  ("Current Emacs daemon instances:" :: (showLines config fsExists (get_daemons ps)).1,
    (showLines config fsExists (get_daemons ps)).2)

/-- `DaemonProcess::kill` (lines 38-63): build a fresh snapshot
(`System::new_all()`), look the recorded pid up in it; when absent report
an error without any delivery attempt, when present send `Signal::Term`
via `kill_with` and report the outcome. -/
def DaemonProcess.kill (d : DaemonProcess) (env : KillEnv) : Except DaemonErr Nat :=
  if env.procAlive d.pid then
    match env.deliver d.pid Signal.term with
    | some true => .ok d.pid
    | some false => .error (.signalRefused d.socket_name d.pid)
    | none => .error .signalUnsupported
  else .error (.pidGone d.pid)

/-- `kill_daemon` (lines 147-165): first record whose socket name equals
the input; on successful kill print the pid (the `List String` is the
stdout lines) and return `Ok(())`. -/
def kill_daemon (ps : List Process) (env : KillEnv) (name : String) :
    List String × Except DaemonErr Unit :=
  match (get_daemons ps).find? (fun p => p.socket_name == name) with
  | some daemon =>
    match daemon.kill env with
    | .ok pid => ([Nat.repr pid], .ok ())
    | .error e => ([], .error e)
  | none => ([], .error (.noMatch name))

/-! ### Helper lemmas about the character-level primitives -/

theorem splitOnceChar_append (sep : Char) (a b : List Char) (h : sep ∉ a) :
    splitOnceChar sep (a ++ sep :: b) = some (a, b) := by
  induction a with
  | nil => simp [splitOnceChar]
  | cons x a ih =>
    have hx : ¬ x = sep := by rintro rfl; exact h (List.mem_cons_self _ _)
    have ha : sep ∉ a := fun hm => h (List.mem_cons_of_mem _ hm)
    simp [splitOnceChar, hx, ih ha]

theorem splitChar_ne_nil (sep : Char) (l : List Char) : splitChar sep l ≠ [] := by
  induction l with
  | nil => simp [splitChar]
  | cons c cs ih =>
    by_cases hc : c = sep
    · simp [splitChar, hc]
    · cases hs : splitChar sep cs with
      | nil => simp [splitChar, hc, hs]
      | cons s ss => simp [splitChar, hc, hs]

theorem splitChar_not_mem (sep : Char) (l : List Char) :
    ∀ q ∈ splitChar sep l, sep ∉ q := by
  induction l with
  | nil => intro q hq; simp [splitChar] at hq; simp [hq]
  | cons c cs ih =>
    intro q hq
    by_cases hc : c = sep
    · rw [show splitChar sep (c :: cs) = [] :: splitChar sep cs by simp [splitChar, hc]] at hq
      rcases List.mem_cons.mp hq with h1 | h1
      · simp [h1]
      · exact ih q h1
    · cases hs : splitChar sep cs with
      | nil => exact absurd hs (splitChar_ne_nil sep cs)
      | cons s ss =>
        rw [show splitChar sep (c :: cs) = (c :: s) :: ss by simp [splitChar, hc, hs]] at hq
        rcases List.mem_cons.mp hq with h1 | h1
        · subst h1
          intro hm
          rcases List.mem_cons.mp hm with h2 | h2
          · exact hc h2.symm
          · exact ih s (hs ▸ List.mem_cons_self _ _) h2
        · exact ih q (hs ▸ List.mem_cons_of_mem _ h1)

theorem splitChar_of_not_mem (sep : Char) (l : List Char) (h : sep ∉ l) :
    splitChar sep l = [l] := by
  induction l with
  | nil => rfl
  | cons c cs ih =>
    have hc : ¬ c = sep := by rintro rfl; exact h (List.mem_cons_self _ _)
    have hcs : sep ∉ cs := fun hm => h (List.mem_cons_of_mem _ hm)
    simp [splitChar, hc, ih hcs]

theorem splitChar_append_shape (sep : Char) (a b : List Char) :
    ∃ s ss, splitChar sep (a ++ sep :: b) = s :: ss ∧ ss ≠ [] := by
  induction a with
  | nil => exact ⟨[], splitChar sep b, by simp [splitChar], splitChar_ne_nil sep b⟩
  | cons x a ih =>
    obtain ⟨s, ss, hs, hss⟩ := ih
    by_cases hx : x = sep
    · exact ⟨[], splitChar sep (a ++ sep :: b), by simp [splitChar, hx],
        splitChar_ne_nil sep _⟩
    · refine ⟨x :: s, ss, ?_, hss⟩
      simp [splitChar, hx, hs]

theorem getLast?_splitChar_append (sep : Char) (a b : List Char) :
    (splitChar sep (a ++ sep :: b)).getLast? = (splitChar sep b).getLast? := by
  induction a with
  | nil =>
    cases hb : splitChar sep b with
    | nil => exact absurd hb (splitChar_ne_nil sep b)
    | cons s ss => simp [splitChar, hb]
  | cons x a ih =>
    by_cases hx : x = sep
    · rw [show (x :: a) ++ sep :: b = x :: (a ++ sep :: b) from rfl]
      obtain ⟨s, ss, hs, _⟩ := splitChar_append_shape sep a b
      rw [show splitChar sep (x :: (a ++ sep :: b)) = [] :: splitChar sep (a ++ sep :: b) by
        simp [splitChar, hx]]
      rw [hs] at ih ⊢
      simpa [List.getLast?_cons_cons] using ih
    · obtain ⟨s, ss, hs, hss⟩ := splitChar_append_shape sep a b
      rw [show (x :: a) ++ sep :: b = x :: (a ++ sep :: b) from rfl]
      rw [show splitChar sep (x :: (a ++ sep :: b)) = (x :: s) :: ss by
        simp [splitChar, hx, hs]]
      rw [hs] at ih
      cases ss with
      | nil => exact absurd rfl hss
      | cons t ts => simpa [List.getLast?_cons_cons] using ih

theorem getLast?_some_decomp {α : Type} :
    ∀ (l : List α) (x : α), l.getLast? = some x → ∃ l', l = l' ++ [x] := by
  intro l
  induction l with
  | nil => intro x h; cases h
  | cons y ys ih =>
    intro x h
    cases ys with
    | nil =>
      simp [List.getLast?_singleton] at h
      exact ⟨[], by simp [h]⟩
    | cons z zs =>
      rw [List.getLast?_cons_cons] at h
      obtain ⟨l', hl⟩ := ih x h
      exact ⟨y :: l', by simp [hl]⟩

theorem mem_of_getLast?_some {α : Type} (l : List α) (x : α) (h : l.getLast? = some x) :
    x ∈ l := by
  obtain ⟨l', hl⟩ := getLast?_some_decomp l x h
  subst hl
  simp

theorem getLast?_filter {α : Type} (p : α → Bool) (l : List α) (x : α)
    (h : l.getLast? = some x) (hp : p x = true) : (l.filter p).getLast? = some x := by
  obtain ⟨l', hl⟩ := getLast?_some_decomp l x h
  subst hl
  rw [List.filter_append, show List.filter p [x] = [x] by simp [List.filter_cons, hp]]
  exact List.getLast?_concat _

theorem fileNameChar_no_slash (X : List Char) (h : '/' ∉ X) (h1 : X ≠ [])
    (h2 : X ≠ ['.']) (h3 : X ≠ ['.', '.']) : fileNameChar X = some X := by
  have hp : (!(X == [] || X == ['.'])) = true := by simp [h1, h2]
  unfold fileNameChar
  rw [splitChar_of_not_mem '/' X h]
  rw [getLast?_filter _ _ _ (List.getLast?_singleton X) hp]
  simp [h3]

theorem fileNameChar_ends (b X : List Char) (h : '/' ∉ X) (h1 : X ≠ [])
    (h2 : X ≠ ['.']) (h3 : X ≠ ['.', '.']) : fileNameChar (b ++ '/' :: X) = some X := by
  have hp : (!(X == [] || X == ['.'])) = true := by simp [h1, h2]
  have hlast : (splitChar '/' (b ++ '/' :: X)).getLast? = some X := by
    rw [getLast?_splitChar_append '/' b X, splitChar_of_not_mem '/' X h]
    exact List.getLast?_singleton X
  unfold fileNameChar
  rw [getLast?_filter _ _ _ hlast hp]
  simp [h3]

theorem fileNameChar_sound (l c : List Char) (h : fileNameChar l = some c) :
    c ≠ [] ∧ '/' ∉ c := by
  unfold fileNameChar at h
  cases hg : ((splitChar '/' l).filter (fun c => !(c == [] || c == ['.']))).getLast? with
  | none => rw [hg] at h; cases h
  | some c' =>
    rw [hg] at h
    by_cases hdd : c' = ['.', '.']
    · simp [hdd] at h
    · simp [hdd] at h
      obtain rfl := h
      have hmem := mem_of_getLast?_some _ _ hg
      obtain ⟨hin, hpred⟩ := List.mem_filter.mp hmem
      refine ⟨?_, splitChar_not_mem '/' l _ hin⟩
      intro hnil
      rw [hnil] at hpred
      simp at hpred

theorem getLast?_splitChar_suffix (sep : Char) :
    ∀ (a t : List Char), sep ∉ t →
      ∃ b, (splitChar sep (a ++ t)).getLast? = some (b ++ t) := by
  intro a
  induction a with
  | nil =>
    intro t ht
    exact ⟨[], by simp [splitChar_of_not_mem sep t ht]⟩
  | cons x a ih =>
    intro t ht
    obtain ⟨b, hb⟩ := ih t ht
    rw [show (x :: a) ++ t = x :: (a ++ t) from rfl]
    by_cases hx : x = sep
    · refine ⟨b, ?_⟩
      rw [show splitChar sep (x :: (a ++ t)) = [] :: splitChar sep (a ++ t) by
        simp [splitChar, hx]]
      cases hs : splitChar sep (a ++ t) with
      | nil => exact absurd hs (splitChar_ne_nil sep _)
      | cons s ss => rw [hs] at hb; simpa [List.getLast?_cons_cons] using hb
    · cases hs : splitChar sep (a ++ t) with
      | nil => exact absurd hs (splitChar_ne_nil sep _)
      | cons s ss =>
        rw [show splitChar sep (x :: (a ++ t)) = (x :: s) :: ss by simp [splitChar, hx, hs]]
        rw [hs] at hb
        cases ss with
        | nil =>
          simp [List.getLast?_singleton] at hb ⊢
          exact ⟨x :: b, by simp [hb]⟩
        | cons u us =>
          refine ⟨b, ?_⟩
          simpa [List.getLast?_cons_cons] using hb

theorem extractSocketName_sound (a s : String) (h : extractSocketName a = some s) :
    s ≠ "" ∧ '/' ∉ s.data := by
  unfold extractSocketName at h
  cases hc : extractCore a.data with
  | none => rw [hc] at h; cases h
  | some l =>
    rw [hc] at h
    injection h with h
    have hfn : ∃ seg, fileNameChar seg = some l := by
      unfold extractCore at hc
      cases h1 : splitOnceChar '=' a.data with
      | none => rw [h1] at hc; cases hc
      | some pr =>
        obtain ⟨x, suf⟩ := pr
        rw [h1] at hc
        have hc2 : (match (splitChar '\n' suf).getLast? with
            | none => none
            | some seg => fileNameChar seg) = some l := hc
        cases h2 : (splitChar '\n' suf).getLast? with
        | none => rw [h2] at hc2; cases hc2
        | some seg =>
          rw [h2] at hc2
          exact ⟨seg, hc2⟩
    obtain ⟨seg, hseg⟩ := hfn
    obtain ⟨hne, hsl⟩ := fileNameChar_sound seg l hseg
    constructor
    · intro hempty
      rw [← h] at hempty
      exact hne (congrArg String.data hempty)
    · rw [← h]
      exact hsl

theorem extractSocketName_eq_core (arg : String) :
    extractSocketName arg = Option.map (fun l => String.mk l) (extractCore arg.data) := by
  cases h : extractCore arg.data <;> simp [extractSocketName, h]

theorem extractCore_append (a suf : List Char) (h : '=' ∉ a) :
    extractCore (a ++ '=' :: suf) =
      match (splitChar '\n' suf).getLast? with
      | none => none
      | some seg => fileNameChar seg := by
  unfold extractCore
  rw [splitOnceChar_append '=' _ _ h]

theorem extractCore_no_newline (a X : List Char) (hEq : '=' ∉ a) (h3 : '\n' ∉ X) :
    extractCore (a ++ '=' :: X) = fileNameChar X := by
  rw [extractCore_append a X hEq, splitChar_of_not_mem '\n' X h3,
    List.getLast?_singleton]

/-! ### Claim theorems -/

/-- C3 counterexample: X = `.` is non-empty and contains neither `/` nor a
newline, yet the extraction rule applied to `--daemon=.` fails (the final
path component of `.` is empty), so the claimed round trip does not hold
for every such X. -/
theorem extraction_daemon_dot_counterexample :
    (("." : String) ≠ "" ∧ '/' ∉ ("." : String).data ∧ '\n' ∉ ("." : String).data) ∧
      extractSocketName ("--daemon=" ++ ".") = none ∧
      extractSocketName ("--daemon=" ++ ".") ≠ some "." := by
  decide

/-- C3 (amended): for every non-empty string X containing no `/` and no
newline, and distinct from the special path components `.` and `..`,
applying the socket-name extraction rule to `--daemon=` ++ X yields
exactly X. -/
theorem extraction_daemon_roundtrip (X : String) (h1 : X ≠ "") (h2 : '/' ∉ X.data)
    (h3 : '\n' ∉ X.data) (h4 : X ≠ ".") (h5 : X ≠ "..") :
    extractSocketName ("--daemon=" ++ X) = some X := by
  have hX : X.data ≠ [] := fun hnil => h1 (String.ext (by rw [hnil]))
  have h4' : X.data ≠ ['.'] := fun hd => h4 (String.ext (by rw [hd]))
  have h5' : X.data ≠ ['.', '.'] := fun hd => h5 (String.ext (by rw [hd]))
  have e : ("--daemon=" : String).data = ("--daemon" : String).data ++ ['='] := by decide
  have hdata : ("--daemon=" ++ X).data = ("--daemon" : String).data ++ '=' :: X.data := by
    rw [String.data_append, e, List.append_assoc, List.singleton_append]
  rw [extractSocketName_eq_core, hdata,
    extractCore_no_newline _ _ (by decide) h3,
    fileNameChar_no_slash X.data h2 hX h4' h5']
  rfl

/-- Witness for the amended C3 round trip at X = `srv`. -/
theorem extraction_daemon_roundtrip_witness :
    extractSocketName ("--daemon=" ++ "srv") = some "srv" :=
  extraction_daemon_roundtrip "srv" (by decide) (by decide) (by decide) (by decide)
    (by decide)

/-- C7 counterexample: with prefix = `` and path = `/a/b`, the path ends
in `/` ++ `a/b`, yet extraction on the `--bg-daemon=` form yields `b`,
not `a/b`, so the claim quantified over all strings X fails. -/
theorem extraction_bg_daemon_counterexample :
    ("/a/b" : String) = "" ++ "/" ++ "a/b" ∧
      extractSocketName ("--bg-daemon=" ++ "" ++ "\n" ++ "/a/b") = some "b" ∧
      ("b" : String) ≠ "a/b" := by
  decide

/-- C7 (amended): for all strings prefix and p0 and every non-empty X
containing no `/` and no newline and distinct from `.` and `..`, applying
the socket-name extraction rule to
`--bg-daemon=` ++ prefix ++ LF ++ p0 ++ `/` ++ X yields exactly X. -/
theorem extraction_bg_daemon_roundtrip (pre p0 X : String) (h1 : X ≠ "")
    (h2 : '/' ∉ X.data) (h3 : '\n' ∉ X.data) (h4 : X ≠ ".") (h5 : X ≠ "..") :
    extractSocketName ("--bg-daemon=" ++ pre ++ "\n" ++ p0 ++ "/" ++ X) = some X := by
  have hX : X.data ≠ [] := fun hnil => h1 (String.ext (by rw [hnil]))
  have h4' : X.data ≠ ['.'] := fun hd => h4 (String.ext (by rw [hd]))
  have h5' : X.data ≠ ['.', '.'] := fun hd => h5 (String.ext (by rw [hd]))
  have e : ("--bg-daemon=" : String).data = ("--bg-daemon" : String).data ++ ['='] := by
    decide
  have hdata : ("--bg-daemon=" ++ pre ++ "\n" ++ p0 ++ "/" ++ X).data
      = ("--bg-daemon" : String).data
        ++ '=' :: ((pre.data ++ '\n' :: p0.data) ++ ('/' :: X.data)) := by
    simp only [String.data_append, e]
    simp [List.append_assoc]
  rw [extractSocketName_eq_core, hdata, extractCore_append _ _ (by decide)]
  obtain ⟨b, hb⟩ := getLast?_splitChar_suffix '\n' (pre.data ++ '\n' :: p0.data)
    ('/' :: X.data) (by simp [h3])
  rw [hb]
  show Option.map (fun l => String.mk l) (fileNameChar (b ++ '/' :: X.data)) = some X
  rw [fileNameChar_ends b X.data h2 hX h4' h5']
  rfl

/-- Witness for the amended C7 round trip at prefix = `\x03,5`,
p0 = `/var/run/emacs1000`, X = `srv`. -/
theorem extraction_bg_daemon_roundtrip_witness :
    extractSocketName ("--bg-daemon=" ++ "\x03,5" ++ "\n" ++ "/var/run/emacs1000" ++ "/" ++ "srv")
      = some "srv" :=
  extraction_bg_daemon_roundtrip "\x03,5" "/var/run/emacs1000" "srv" (by decide)
    (by decide) (by decide) (by decide) (by decide)

/-- C9: every DaemonRecord produced by discovery has a non-empty socket
name that contains no `/` character. -/
theorem discovery_socket_name_invariant (ps : List Process) (r : DaemonProcess)
    (h : r ∈ get_daemons ps) : r.socket_name ≠ "" ∧ '/' ∉ r.socket_name.data := by
  unfold get_daemons at h
  obtain ⟨p, _, hp⟩ := List.mem_filterMap.mp h
  unfold DaemonProcess.from_sys_process at hp
  cases h1 : p.cmd[1]? with
  | none => rw [h1] at hp; cases hp
  | some a1 =>
    rw [h1] at hp
    have hp2 : (match extractSocketName a1 with
        | none => (none : Option DaemonProcess)
        | some sn => some ⟨p.pid, p.user_id, sn⟩) = some r := hp
    cases h2 : extractSocketName a1 with
    | none => rw [h2] at hp2; cases hp2
    | some sn =>
      rw [h2] at hp2
      injection hp2 with hp2
      obtain rfl := hp2
      exact extractSocketName_sound a1 sn h2

/-- Witness for C9 at the snapshot containing one daemon process. -/
theorem discovery_socket_name_invariant_witness :
    (⟨4242, some 1000, "main"⟩ : DaemonProcess)
        ∈ get_daemons [⟨4242, some 1000, "emacs", ["emacs", "--daemon=main"]⟩] ∧
      (("main" : String) ≠ "" ∧ '/' ∉ ("main" : String).data) :=
  ⟨by decide,
    discovery_socket_name_invariant [⟨4242, some 1000, "emacs", ["emacs", "--daemon=main"]⟩]
      ⟨4242, some 1000, "main"⟩ (by decide)⟩

/-- C4: discovery yields, in snapshot order and with multiplicity, exactly
one record (with the fields shown) for each process whose lowercased name
begins with `emacs`, whose argv[1] exists and contains `daemon`, and whose
argv[1] is parseable by the extraction rule, and no record for any other
process. -/
theorem get_daemons_characterization (ps : List Process) :
    get_daemons ps = ps.filterMap (fun p =>
      match p.cmd[1]? with
      | none => none
      | some a1 =>
        if strStartsWith (strToLower p.name) "emacs" && strContains a1 "daemon" then
          match extractSocketName a1 with
          | none => none
          | some sn => some { pid := p.pid, user_id := p.user_id, socket_name := sn }
        else none) := by
  unfold get_daemons
  rw [List.filterMap_filter, List.filterMap_filter]
  apply List.filterMap_congr
  intro p _
  cases h1 : p.cmd[1]? with
  | none =>
    by_cases hname : strStartsWith (strToLower p.name) "emacs" = true <;>
      simp [h1, hname]
  | some a1 =>
    by_cases hname : strStartsWith (strToLower p.name) "emacs" = true <;>
      by_cases hcont : strContains a1 "daemon" = true <;>
        simp [h1, hname, hcont, DaemonProcess.from_sys_process]

/-- C2 counterexample: two environments with the identical signal-delivery
behaviour (the OS would deliver every signal successfully) but different
fresh snapshots give different kill outcomes: when the recorded pid is
absent from the re-acquired snapshot, kill fails with a no-process-found
error even though the OS would have delivered the signal, so non-existence
is not detected via the refusal to deliver, and the re-acquired snapshot
does matter. -/
theorem kill_second_snapshot_counterexample :
    (KillEnv.deliver ⟨fun _ => true, fun _ _ => some true⟩
        = KillEnv.deliver ⟨fun _ => false, fun _ _ => some true⟩) ∧
      DaemonProcess.kill ⟨7, some 1000, "main"⟩ ⟨fun _ => true, fun _ _ => some true⟩
        = Except.ok 7 ∧
      DaemonProcess.kill ⟨7, some 1000, "main"⟩ ⟨fun _ => false, fun _ _ => some true⟩
        = Except.error (DaemonErr.pidGone 7) :=
  ⟨rfl, rfl, rfl⟩

/-- C2 (amended): the kill operation re-acquires a process-table snapshot;
when the recorded pid is absent from it, it reports a no-process error
without consulting signal delivery, and when present it sends TERM to that
pid and reports the delivery outcome (refused or unsupported as errors). -/
theorem kill_spec (d : DaemonProcess) (env : KillEnv) :
    (env.procAlive d.pid = false → d.kill env = Except.error (DaemonErr.pidGone d.pid)) ∧
      (env.procAlive d.pid = true → env.deliver d.pid Signal.term = some true →
        d.kill env = Except.ok d.pid) ∧
      (env.procAlive d.pid = true → env.deliver d.pid Signal.term = some false →
        d.kill env = Except.error (DaemonErr.signalRefused d.socket_name d.pid)) ∧
      (env.procAlive d.pid = true → env.deliver d.pid Signal.term = none →
        d.kill env = Except.error DaemonErr.signalUnsupported) := by
  refine ⟨fun ha => ?_, fun ha hd => ?_, fun ha hd => ?_, fun ha hd => ?_⟩
  · simp [DaemonProcess.kill, ha]
  · simp [DaemonProcess.kill, ha, hd]
  · simp [DaemonProcess.kill, ha, hd]
  · simp [DaemonProcess.kill, ha, hd]

/-- Witness for the amended C2 at a live pid whose TERM delivery
succeeds. -/
theorem kill_spec_witness :
    DaemonProcess.kill ⟨7, some 1000, "main"⟩ ⟨fun _ => true, fun _ _ => some true⟩
      = Except.ok 7 :=
  (kill_spec ⟨7, some 1000, "main"⟩ ⟨fun _ => true, fun _ _ => some true⟩).2.1 rfl rfl

theorem find?_first {α : Type} (p : α → Bool) (l1 : List α) (d : α) (l2 : List α)
    (h1 : ∀ x ∈ l1, p x = false) (hd : p d = true) :
    (l1 ++ d :: l2).find? p = some d := by
  induction l1 with
  | nil => simp [List.find?_cons, hd]
  | cons x xs ih =>
    have hx := h1 x (List.mem_cons_self _ _)
    simp [List.find?_cons, hx, ih (fun y hy => h1 y (List.mem_cons_of_mem _ hy))]

/-- C6: socket-path resolution returns `tmp_dir/emacs<uid>/<socket_name>`
when the record has a user id and that path exists; it fails if and only
if the record has no user id or the path does not exist (existence being
the only property of the filesystem it consults). -/
theorem socket_file_spec (d : DaemonProcess) (config : Config) (fs : String → Bool) :
    (∀ uid, d.user_id = some uid →
      (fs (pathJoin (pathJoin config.tmp_dir ("emacs" ++ Nat.repr uid)) d.socket_name) = true →
        d.socket_file config fs
          = Except.ok (pathJoin (pathJoin config.tmp_dir ("emacs" ++ Nat.repr uid)) d.socket_name)) ∧
      (fs (pathJoin (pathJoin config.tmp_dir ("emacs" ++ Nat.repr uid)) d.socket_name) = false →
        d.socket_file config fs
          = Except.error (DaemonErr.socketMissing
              (pathJoin (pathJoin config.tmp_dir ("emacs" ++ Nat.repr uid)) d.socket_name)))) ∧
    (d.user_id = none → d.socket_file config fs = Except.error DaemonErr.noUserId) ∧
    ((∃ e, d.socket_file config fs = Except.error e) ↔
      (d.user_id = none ∨ ∃ uid, d.user_id = some uid ∧
        fs (pathJoin (pathJoin config.tmp_dir ("emacs" ++ Nat.repr uid)) d.socket_name) = false)) := by
  cases hu : d.user_id with
  | none =>
    refine ⟨fun uid h => ?_, fun _ => ?_, ?_⟩
    · cases h
    · simp [DaemonProcess.socket_file, hu]
    · constructor
      · intro _; exact Or.inl rfl
      · intro _; exact ⟨DaemonErr.noUserId, by simp [DaemonProcess.socket_file, hu]⟩
  | some uid =>
    refine ⟨fun uid' h => ?_, fun h => ?_, ?_⟩
    · injection h with h
      subst h
      constructor
      · intro hfs; simp [DaemonProcess.socket_file, hu, hfs]
      · intro hfs; simp [DaemonProcess.socket_file, hu, hfs]
    · cases h
    · by_cases hfs :
        fs (pathJoin (pathJoin config.tmp_dir ("emacs" ++ Nat.repr uid)) d.socket_name) = true
      · constructor
        · rintro ⟨e, he⟩
          rw [show d.socket_file config fs
              = Except.ok (pathJoin (pathJoin config.tmp_dir ("emacs" ++ Nat.repr uid)) d.socket_name)
            by simp [DaemonProcess.socket_file, hu, hfs]] at he
          cases he
        · rintro (h | ⟨uid', h, hfalse⟩)
          · cases h
          · injection h with h
            subst h
            rw [hfs] at hfalse
            cases hfalse
      · have hfs' :
            fs (pathJoin (pathJoin config.tmp_dir ("emacs" ++ Nat.repr uid)) d.socket_name)
              = false := by
          simpa using hfs
        constructor
        · intro _; exact Or.inr ⟨uid, rfl, hfs'⟩
        · intro _
          exact ⟨DaemonErr.socketMissing
              (pathJoin (pathJoin config.tmp_dir ("emacs" ++ Nat.repr uid)) d.socket_name),
            by simp [DaemonProcess.socket_file, hu, hfs']⟩

/-- Witness for C6 at a record with uid 1000 over a filesystem on which
every path exists. -/
theorem socket_file_spec_witness :
    DaemonProcess.socket_file ⟨4242, some 1000, "main"⟩ ⟨"/tmp", "server"⟩ (fun _ => true)
      = Except.ok (pathJoin (pathJoin "/tmp" ("emacs" ++ Nat.repr 1000)) "main") :=
  (((socket_file_spec ⟨4242, some 1000, "main"⟩ ⟨"/tmp", "server"⟩ (fun _ => true)).1
    1000 rfl).1) rfl

/-- C5: kill-by-name selects the first record in snapshot order whose
socket name equals the input exactly and sends TERM to its pid; when the
TERM signal is delivered it prints the pid and succeeds; when no record
matches it returns the not-found error; and when signal delivery fails it
returns the corresponding signal error (delivery refused, signal
unsupported, or the pid having vanished before delivery could be
attempted). -/
theorem kill_daemon_spec (ps : List Process) (env : KillEnv) (name : String) :
    ((∀ d ∈ get_daemons ps, d.socket_name ≠ name) →
      kill_daemon ps env name = ([], Except.error (DaemonErr.noMatch name))) ∧
    (∀ l1 d l2, get_daemons ps = l1 ++ d :: l2 →
      (∀ x ∈ l1, x.socket_name ≠ name) → d.socket_name = name →
      (env.procAlive d.pid = true → env.deliver d.pid Signal.term = some true →
        kill_daemon ps env name = ([Nat.repr d.pid], Except.ok ())) ∧
      (env.procAlive d.pid = true → env.deliver d.pid Signal.term = some false →
        kill_daemon ps env name
          = ([], Except.error (DaemonErr.signalRefused d.socket_name d.pid))) ∧
      (env.procAlive d.pid = true → env.deliver d.pid Signal.term = none →
        kill_daemon ps env name = ([], Except.error DaemonErr.signalUnsupported)) ∧
      (env.procAlive d.pid = false →
        kill_daemon ps env name = ([], Except.error (DaemonErr.pidGone d.pid)))) := by
  constructor
  · intro hall
    have hfind : (get_daemons ps).find? (fun p => p.socket_name == name) = none := by
      rw [List.find?_eq_none]
      intro x hx
      simp [hall x hx]
    simp [kill_daemon, hfind]
  · intro l1 d l2 hsplit hl1 hd
    have hfind : (get_daemons ps).find? (fun p => p.socket_name == name) = some d := by
      rw [hsplit]
      exact find?_first _ l1 d l2 (fun x hx => by simp [hl1 x hx]) (by simp [hd])
    refine ⟨fun ha hdel => ?_, fun ha hdel => ?_, fun ha hdel => ?_, fun ha => ?_⟩
    · simp [kill_daemon, hfind, DaemonProcess.kill, ha, hdel]
    · simp [kill_daemon, hfind, DaemonProcess.kill, ha, hdel]
    · simp [kill_daemon, hfind, DaemonProcess.kill, ha, hdel]
    · simp [kill_daemon, hfind, DaemonProcess.kill, ha]

/-- Witness for C5: a single matching daemon whose TERM delivery succeeds
is killed and its pid printed. -/
theorem kill_daemon_spec_witness :
    kill_daemon [⟨4242, some 1000, "emacs", ["emacs", "--daemon=main"]⟩]
        ⟨fun _ => true, fun _ _ => some true⟩ "main"
      = ([Nat.repr 4242], Except.ok ()) :=
  ((kill_daemon_spec [⟨4242, some 1000, "emacs", ["emacs", "--daemon=main"]⟩]
      ⟨fun _ => true, fun _ _ => some true⟩ "main").2 [] ⟨4242, some 1000, "main"⟩ []
    (by decide) (by simp) rfl).1 rfl rfl

/-- C8 counterexample: for a daemon whose resolved socket path is shorter
than 30 characters (here `/t/emacs0/a`), the emitted line is not the
claimed concatenation that puts the bare path directly before the
closing ` ]`: the code left-justifies the path in a width-30 field
first. -/
theorem show_format_counterexample :
    DaemonProcess.socket_file ⟨1, some 0, "a"⟩ ⟨"/t", "s"⟩ (fun _ => true)
        = Except.ok "/t/emacs0/a" ∧
      DaemonProcess.showLine ⟨1, some 0, "a"⟩ ⟨"/t", "s"⟩ (fun _ => true)
        ≠ some (padRight "a" 14 ++ " [Pid: " ++ padLeft (Nat.repr 1) 8
            ++ ", Socket: " ++ "/t/emacs0/a" ++ " ]") := by
  decide

/-- C8 (amended): every daemon line emitted by the listing has the format
socket name left-justified to width 14, literal ` [Pid: `, decimal pid
right-aligned to width 8, literal `, Socket: `, the resolved path
left-justified to width 30, literal ` ]`. -/
theorem show_format (d : DaemonProcess) (config : Config) (fs : String → Bool)
    (path : String) (h : d.socket_file config fs = Except.ok path) :
    d.showLine config fs
      = some (padRight d.socket_name 14 ++ " [Pid: " ++ padLeft (Nat.repr d.pid) 8
          ++ ", Socket: " ++ padRight path 30 ++ " ]") := by
  unfold DaemonProcess.showLine
  rw [h]
  show some (padRight d.socket_name 14 ++ " [" ++ ("Pid: " ++ padLeft (Nat.repr d.pid) 8)
      ++ ", " ++ ("Socket: " ++ padRight path 30 ++ " ") ++ "]")
    = some (padRight d.socket_name 14 ++ " [Pid: " ++ padLeft (Nat.repr d.pid) 8
        ++ ", Socket: " ++ padRight path 30 ++ " ]")
  have e1 : (" [Pid: " : String).data = (" [" : String).data ++ ("Pid: " : String).data := by
    decide
  have e2 : (", Socket: " : String).data
      = (", " : String).data ++ ("Socket: " : String).data := by decide
  have e3 : (" ]" : String).data = (" " : String).data ++ ("]" : String).data := by decide
  congr 1
  apply String.ext
  simp [String.data_append, e1, e2, e3, List.append_assoc]

/-- Witness for the amended C8 at a concrete record and filesystem. -/
theorem show_format_witness :
    DaemonProcess.showLine ⟨1, some 0, "a"⟩ ⟨"/t", "s"⟩ (fun _ => true)
      = some (padRight "a" 14 ++ " [Pid: " ++ padLeft (Nat.repr 1) 8
          ++ ", Socket: " ++ padRight "/t/emacs0/a" 30 ++ " ]") :=
  show_format ⟨1, some 0, "a"⟩ ⟨"/t", "s"⟩ (fun _ => true) "/t/emacs0/a" (by decide)

/-- C1 evidence: at a snapshot holding exactly one discovered daemon whose
user id the OS did not disclose, `list_daemons` prints only the header and
does not return success: the `.expect` in `DaemonProcess::show` panics
instead of formatting the resolution failure into the daemon line. -/
theorem list_daemons_panics_on_resolution_failure :
    (get_daemons [⟨4242, none, "emacs", ["emacs", "--daemon=main"]⟩]).length = 1 ∧
      list_daemons [⟨4242, none, "emacs", ["emacs", "--daemon=main"]⟩] ⟨"/tmp", "server"⟩
          (fun _ => true)
        = (["Current Emacs daemon instances:"], false) := by
  decide

theorem showLines_mem (config : Config) (fs : String → Bool) :
    ∀ (ds : List DaemonProcess) (line : String),
      line ∈ (showLines config fs ds).1 →
      ∃ d, d ∈ ds ∧ d.showLine config fs = some line := by
  intro ds
  induction ds with
  | nil => intro line h; simp [showLines] at h
  | cons d ds ih =>
    intro line h
    cases hs : d.showLine config fs with
    | none => simp [showLines, hs] at h
    | some l =>
      simp only [showLines, hs] at h
      rcases List.mem_cons.mp h with h1 | h1
      · exact ⟨d, List.mem_cons_self _ _, by rw [hs, h1]⟩
      · obtain ⟨d', hd', hl'⟩ := ih line h1
        exact ⟨d', List.mem_cons_of_mem _ hd', hl'⟩

/-- C10: for every snapshot, configuration and filesystem, the listing
output starts with the header line `Current Emacs daemon instances:`, and
every other emitted line is the `show` line of some discovered daemon. -/
theorem list_daemons_header (ps : List Process) (config : Config) (fs : String → Bool) :
    ∃ rest, (list_daemons ps config fs).1 = "Current Emacs daemon instances:" :: rest ∧
      ∀ line ∈ rest, ∃ d, d ∈ get_daemons ps ∧ d.showLine config fs = some line := by
  refine ⟨(showLines config fs (get_daemons ps)).1, rfl, ?_⟩
  intro line h
  exact showLines_mem config fs (get_daemons ps) line h
